import Mathlib

/-!
Verification of the separate-chaining hash table in src/HashTable.h (and its
thin set adapter src/Unordered_Set.h).

Embedding conventions:
* Keys and mapped values are both modelled as Nat (the C++ class is generic;
  all claims are about the engine, not about a particular key type).
* A bucket is the chain of nodes hanging off one bucket head, head first, so a
  table's bucket array is a List (List (Nat × Nat)).  Prepending at a chain
  head is list cons, exactly as the C++ prepends a Node at the head.
* The hash functor is a field hashFn : Nat → Nat (std::hash is stateless, so a
  default-constructed functor behaves like any other instance).
* KeyEqual is std::equal_to, modelled by decidable equality on Nat.
* AllowDuplicates is the default false everywhere (the only instantiation the
  repository uses: Unordered_Set fixes it to false, and all claims concern the
  default policy), so the duplicate-scan branches of insert and the
  break-after-first branch of erase are compiled in.
* _max_load is a float; every constant in the program and in the claims
  (0.75 = 3/4, 1/64, ...) is exactly representable, so the float is modelled
  as the exact rational maxLoadNum / maxLoadDen, and the float comparison
  size / bucket_count > max_load in check_load is the cross-multiplied
  integer comparison maxLoadNum * bucket_count < size * maxLoadDen, which is
  equivalent for a positive denominator and bucket count.
* Throwing (at) and the end iterator (find) are modelled with Option.
-/

/-- One stored element: a (key, value) pair, i.e. Node::_data in map mode. -/
abbrev KV := Nat × Nat

/-- The HashTable state: _buckets, _size, _max_load (as an exact rational
numerator/denominator pair) and the hash functor _hash_fn. -/
structure Table where
  buckets : List (List KV)
  size : Nat
  maxLoadNum : Nat
  maxLoadDen : Nat
  hashFn : Nat → Nat

/-- HashTable(size_type capacity = 16): _buckets(capacity, nullptr), _size = 0,
_max_load = 0.75f. -/
def mkTable (capacity : Nat) (hf : Nat → Nat) : Table :=
  { buckets := List.replicate capacity []
    size := 0
    maxLoadNum := 3
    maxLoadDen := 4
    hashFn := hf }

/-- State of a table that has been moved from: the move constructor
default-initializes every member (empty bucket vector, size 0, load 0.75) and
then swaps with the source, so the source is left holding the
default-initialized members. -/
def movedFrom (t : Table) : Table :=
  { buckets := []
    size := 0
    maxLoadNum := 3
    maxLoadDen := 4
    hashFn := t.hashFn }

/-- HashTable::bucket_index: _hash_fn(key) % _buckets.size(). -/
def bucketIdx (t : Table) (k : Nat) : Nat :=
  t.hashFn k % t.buckets.length

/-- HashTable::find_node restricted to one chain: walk the chain from the head
and return the first node whose key compares equal (List.find? is exactly this
walk). -/
def chainFind (chain : List KV) (k : Nat) : Option KV :=
  chain.find? (fun x => x.1 == k)

/-- HashTable::find: hash the key, walk that bucket's chain; none models the
end iterator returned when find_node comes back null. -/
def findTable (t : Table) (k : Nat) : Option KV :=
  chainFind (t.buckets.getD (bucketIdx t k) []) k

/-- One step of the relink loop in HashTable::rehash: compute the node's index
in the new array and splice the node in at the head of that new bucket. -/
def placeNode (m : Nat) (hf : Nat → Nat) (nb : List (List KV)) (x : KV) : List (List KV) :=
  nb.set (hf x.1 % m) (x :: nb.getD (hf x.1 % m) [])

/-- HashTable::rehash's bucket-array computation: start from new_cap empty
buckets and, walking every old bucket's chain from its head, relink each node
into the new array. -/
def rehashList (m : Nat) (hf : Nat → Nat) (bs : List (List KV)) : List (List KV) :=
  bs.foldl (fun nb chain => chain.foldl (placeNode m hf) nb) (List.replicate m [])

/-- HashTable::rehash(new_cap): replace the bucket array, keeping _size,
_max_load and the functors. -/
def rehashTable (t : Table) (m : Nat) : Table :=
  { t with buckets := rehashList m t.hashFn t.buckets }

/-- Trigger condition of HashTable::check_load,
static_cast<float>(_size) / _buckets.size() > _max_load, cross-multiplied. -/
def loadExceeded (t : Table) : Bool :=
  t.maxLoadNum * t.buckets.length < t.size * t.maxLoadDen

/-- HashTable::check_load: grow to twice the bucket count when the load factor
exceeds the threshold. -/
def checkLoad (t : Table) : Table :=
  if loadExceeded t then rehashTable t (t.buckets.length * 2) else t

/-- HashIterator::skip_empty seen from a bucket position: scan forward past
empty buckets and land on the first node of the first non-empty one; none is
the end position. -/
def firstHead : List (List KV) → Option KV
  | [] => none
  | [] :: rest => firstHead rest
  | (x :: _) :: _ => some x

/-- The element referenced by iterator(&_buckets[i], end, _buckets[i]) built
inside insert: node = head of bucket i, with skip_empty applied when that head
is null (none models the end iterator). -/
def iterAt (t : Table) (i : Nat) : Option KV :=
  firstHead (t.buckets.drop i)

/-- The state in the middle of HashTable::insert, right after the new node
has been prepended at the head of its chain and _size incremented, before
check_load runs. -/
def insertRaw (t : Table) (kv : KV) : Table :=
  { t with buckets := t.buckets.set (bucketIdx t kv.1) (kv :: t.buckets.getD (bucketIdx t kv.1) []), size := t.size + 1 }

/-- HashTable::insert(const value_type&) under the default no-duplicates
policy: scan the chain for the key; on a match return the existing node and
false without mutating; otherwise prepend a new node, bump _size, run
check_load, and only then build the returned iterator from _buckets[index]
(the index computed before the possible rehash). -/
def insertTable (t : Table) (kv : KV) : Table × (Option KV × Bool) :=
  let i := bucketIdx t kv.1
  match chainFind (t.buckets.getD i []) kv.1 with
  | some nd => (t, (some nd, false))
  | none =>
    let t2 := checkLoad (insertRaw t kv)
    (t2, (iterAt t2 i, true))

/-- The table state after an insert, discarding the returned pair. -/
def insertElem (t : Table) (kv : KV) : Table :=
  (insertTable t kv).1

/-- HashTable::reserve(n): rehash to max(n, _size) clamped below by 8. -/
def reserveTable (t : Table) (n : Nat) : Table :=
  rehashTable t (max (max n t.size) 8)

/-- HashTable::at: compute the bucket index; if the bucket head is null throw
(none); otherwise return the head node's mapped value.  This is the literal
code: the chain is never scanned and the head's key is never compared. -/
def atTable (t : Table) (k : Nat) : Option Nat :=
  match t.buckets.getD (bucketIdx t k) [] with
  | [] => none
  | nd :: _ => some nd.2

/-- HashTable::count: walk the key's chain counting key matches. -/
def countTable (t : Table) (k : Nat) : Nat :=
  (t.buckets.getD (bucketIdx t k) []).countP (fun x => x.1 == k)

/-- Chain part of HashTable::erase under the default policy: unlink and delete
the first matching node, then break; returns the new chain and the number of
nodes removed. -/
def eraseChain : List KV → Nat → List KV × Nat
  | [], _ => ([], 0)
  | x :: rest, k =>
    if x.1 == k then (rest, 1)
    else
      let r := eraseChain rest k
      (x :: r.1, r.2)

/-- HashTable::erase: rewrite the key's bucket and decrement _size by the
number removed; the count (0 or 1 under the default policy) is returned, never
an error. -/
def eraseTable (t : Table) (k : Nat) : Table × Nat :=
  let i := bucketIdx t k
  let r := eraseChain (t.buckets.getD i []) k
  ({ t with buckets := t.buckets.set i r.1, size := t.size - r.2 }, r.2)

/-- HashTable::max_load_factor(new_max): store the new threshold, then run
check_load once. -/
def setMaxLoad (t : Table) (num den : Nat) : Table :=
  checkLoad { t with maxLoadNum := num, maxLoadDen := den }

/-- HashTable::operator[](const Key&): walk the chain with an advancing
cursor; on a match return the stored value; on a miss prepend a
default-constructed entry, bump _size, run check_load, then read the value
back through the stale pre-rehash index (head of _buckets[index] after
check_load). -/
def bracketRef (t : Table) (k : Nat) : Table × Option Nat :=
  let i := bucketIdx t k
  match chainFind (t.buckets.getD i []) k with
  | some nd => (t, some nd.2)
  | none =>
    let nb := t.buckets.set i ((k, 0) :: t.buckets.getD i [])
    let t1 : Table := { t with buckets := nb, size := t.size + 1 }
    let t2 := checkLoad t1
    (t2, ((t2.buckets.getD i []).head?).map Prod.snd)

/-- The chain-scanning loop of HashTable::operator[](Key&&), which tests the
same node forever because the loop body never advances the cursor:
while (node) { if (eq(key(node), key)) return node->value; }.  Modelled with
fuel; none means the loop has not finished within the given fuel (for any
fuel, i.e. it diverges).  some none: the loop was skipped because the bucket
was empty (fall through to the insert path); some (some v): returned v. -/
def bracketMoveLoop : Nat → List KV → Nat → Option (Option Nat)
  | 0, _, _ => none
  | _ + 1, [], _ => some none
  | fuel + 1, nd :: rest, k =>
    if nd.1 == k then some (some nd.2) else bracketMoveLoop fuel (nd :: rest) k

/-- HashTable::operator[](Key&&): the non-advancing scan loop, then (when the
bucket was empty) the same insert path as the const overload.  none means the
call has not returned within the given fuel. -/
def bracketMove (fuel : Nat) (t : Table) (k : Nat) : Option (Table × Option Nat) :=
  let i := bucketIdx t k
  match bracketMoveLoop fuel (t.buckets.getD i []) k with
  | none => none
  | some (some v) => some (t, some v)
  | some none =>
    let nb := t.buckets.set i ((k, 0) :: t.buckets.getD i [])
    let t1 : Table := { t with buckets := nb, size := t.size + 1 }
    let t2 := checkLoad t1
    some (t2, ((t2.buckets.getD i []).head?).map Prod.snd)

/-- The HashIterator traversal state machine.  State = (buckets not yet
entered, remainder of the current chain).  A step inside a chain follows
_node = _node->_next; an exhausted chain runs ++_bucket followed by
skip_empty, which is the same as entering the next bucket's chain (empty
chains loop again).  Collects the dereferenced elements in visit order. -/
def iterStream {α : Type} : List (List α) → List α → List α
  | bs, x :: rest => x :: iterStream bs rest
  | [], [] => []
  | b :: bs, [] => iterStream bs b
termination_by bs c => (bs.length, c.length)

/-- The full begin()..end() traversal of a table: start before bucket 0 with
no current node, which makes the iterator constructor run skip_empty. -/
def iterTrace (t : Table) : List KV :=
  iterStream t.buckets []

/-- HashTable::operator==: sizes must agree, then every element of the left
table must be found by key in the right table with an equal (key, value)
payload. -/
def tableEq (a b : Table) : Bool :=
  a.size == b.size &&
  (iterTrace a).all fun kv =>
    match findTable b kv.1 with
    | none => false
    | some kv2 => kv == kv2

/-- HashTable's copy constructor: default-initialize (empty bucket vector,
size 0, load 0.75, default-constructed functors — std::hash is stateless so
the functor behaves like the source's), reserve(other.bucket_count()), then
re-insert every element of the source in iteration order. -/
def copyTable (t : Table) : Table :=
  let t0 : Table :=
    { buckets := [], size := 0, maxLoadNum := 3, maxLoadDen := 4, hashFn := t.hashFn }
  (iterTrace t).foldl insertElem (reserveTable t0 t.buckets.length)

/-- HashTable::clear: destroy every chain and reset every bucket head to
null, keeping the bucket capacity, and reset _size to 0; _max_load and the
functors are untouched. -/
def clearTable (t : Table) : Table :=
  { t with buckets := t.buckets.map (fun _ => []), size := 0 }

/-- HashTable's copy assignment operator, for a source distinct from the
destination (self-assignment is guarded and a no-op): clear() the
destination, reserve(other.bucket_count()), then re-insert every element of
the source in iteration order.  Unlike the copy constructor, the destination
keeps its own _max_load and functors. -/
def copyAssign (dst src : Table) : Table :=
  (iterTrace src).foldl insertElem (reserveTable (clearTable dst) src.buckets.length)

/-- The data-model invariants of a reachable table (spec section 3): at least
one bucket, _size equal to the total number of chained nodes, every node
sitting in the bucket its hash selects, and (default no-duplicates policy)
pairwise distinct keys. -/
def Wf (t : Table) : Prop :=
  1 ≤ t.buckets.length ∧
  t.size = t.buckets.flatten.length ∧
  (∀ i < t.buckets.length, ∀ x ∈ t.buckets.getD i [], t.hashFn x.1 % t.buckets.length = i) ∧
  (t.buckets.flatten.map Prod.fst).Nodup

instance (t : Table) : Decidable (Wf t) := by
  unfold Wf; infer_instance

/-- Example table: 16 buckets, identity hash, holding key 0 with value 10. -/
def exT1 : Table := insertElem (mkTable 16 id) (0, 10)

/-- Example table: exT1 plus key 16 with value 20; 16 collides with 0 modulo
16 buckets, so the new node sits at the head of bucket 0. -/
def exT2 : Table := insertElem exT1 (16, 20)

/-- Example table: 2 buckets, identity hash, holding key 0 with value 10; the
next insertion pushes the load factor over 0.75 and triggers growth. -/
def exSmall : Table := insertElem (mkTable 2 id) (0, 10)

/-- Example table: 4 buckets, identity hash, holding keys 0 and 1. -/
def exPair : Table := insertElem (insertElem (mkTable 4 id) (0, 0)) (1, 1)

/-- Example table: exPair after max_load_factor(1/64) (0.015625, exactly
representable in float); the setter re-checks the load once, doubling the
buckets from 4 to 8, and leaves the load factor 2/8 still above 1/64. -/
def exLowLoad : Table := setMaxLoad exPair 1 64

/-- Example table: 16 buckets, identity hash, holding key 1 with value 5. -/
def exW : Table := insertElem (mkTable 16 id) (1, 5)

/-! ### List helper lemmas -/

lemma getD_set_self (l : List (List KV)) (i : Nat) (c : List KV) (h : i < l.length) :
    (l.set i c).getD i [] = c := by
  simp [List.getD_eq_getElem?_getD, List.getElem?_set_self, h]

lemma getD_set_ne (l : List (List KV)) {i j : Nat} (c : List KV) (h : i ≠ j) :
    (l.set i c).getD j [] = l.getD j [] := by
  simp [List.getD_eq_getElem?_getD, List.getElem?_set_ne h]

lemma getD_replicate (m i : Nat) : (List.replicate m ([] : List KV)).getD i [] = [] := by
  rw [List.getD_eq_getElem?_getD, List.getElem?_replicate]
  split <;> rfl

lemma flatten_replicate_nil (m : Nat) : (List.replicate m ([] : List KV)).flatten = [] := by
  induction m with
  | zero => rfl
  | succ n ih => simp [List.replicate_succ, ih]

lemma mem_getD_flatten {l : List (List KV)} {i : Nat} {x : KV} (h : x ∈ l.getD i []) :
    x ∈ l.flatten := by
  rcases lt_or_le i l.length with hi | hi
  · rw [List.getD_eq_getElem l [] hi] at h
    exact List.mem_flatten.mpr ⟨l[i], List.getElem_mem hi, h⟩
  · rw [List.getD_eq_default l [] hi] at h
    cases h

lemma flatten_set_cons_perm (l : List (List KV)) (i : Nat) (x : KV) (h : i < l.length) :
    List.Perm (l.set i (x :: l.getD i [])).flatten (x :: l.flatten) := by
  induction l generalizing i with
  | nil => simp at h
  | cons c rest ih =>
    cases i with
    | zero => simp
    | succ j =>
      have hj : j < rest.length := by simpa using h
      have hperm := ih j hj
      simp only [List.set_cons_succ, List.getD_cons_succ, List.flatten_cons]
      exact (hperm.append_left c).trans List.perm_middle

/-! ### Rehash lemmas -/

lemma placeNode_length (m : Nat) (hf : Nat → Nat) (nb : List (List KV)) (x : KV) :
    (placeNode m hf nb x).length = nb.length := by
  simp [placeNode]

lemma placeNode_flatten_perm {m : Nat} (hf : Nat → Nat) {nb : List (List KV)} (x : KV)
    (hlen : nb.length = m) (hm : 0 < m) :
    List.Perm (placeNode m hf nb x).flatten (x :: nb.flatten) := by
  have hi : hf x.1 % m < nb.length := by rw [hlen]; exact Nat.mod_lt _ hm
  exact flatten_set_cons_perm nb _ x hi

lemma foldl_place_length (m : Nat) (hf : Nat → Nat) (chain : List KV) (nb : List (List KV)) :
    (chain.foldl (placeNode m hf) nb).length = nb.length := by
  induction chain generalizing nb with
  | nil => rfl
  | cons x xs ih => rw [List.foldl_cons, ih, placeNode_length]

lemma foldl_place_flatten_perm {m : Nat} (hf : Nat → Nat) (chain : List KV)
    {nb : List (List KV)} (hlen : nb.length = m) (hm : 0 < m) :
    List.Perm (chain.foldl (placeNode m hf) nb).flatten (chain ++ nb.flatten) := by
  induction chain generalizing nb with
  | nil => simp
  | cons x xs ih =>
    rw [List.foldl_cons]
    have h1 := @ih (placeNode m hf nb x) (by rw [placeNode_length, hlen])
    have h2 := placeNode_flatten_perm hf x hlen hm
    exact (h1.trans (h2.append_left xs)).trans List.perm_middle

lemma foldl_buckets_length (m : Nat) (hf : Nat → Nat) (bs : List (List KV))
    (nb : List (List KV)) :
    (bs.foldl (fun acc chain => chain.foldl (placeNode m hf) acc) nb).length = nb.length := by
  induction bs generalizing nb with
  | nil => rfl
  | cons c rest ih => rw [List.foldl_cons, ih, foldl_place_length]

lemma rehashList_length (m : Nat) (hf : Nat → Nat) (bs : List (List KV)) :
    (rehashList m hf bs).length = m := by
  rw [rehashList, foldl_buckets_length, List.length_replicate]

lemma foldl_buckets_flatten_perm {m : Nat} (hf : Nat → Nat) (bs : List (List KV))
    {nb : List (List KV)} (hlen : nb.length = m) (hm : 0 < m) :
    List.Perm (bs.foldl (fun acc chain => chain.foldl (placeNode m hf) acc) nb).flatten
      (bs.flatten ++ nb.flatten) := by
  induction bs generalizing nb with
  | nil => simp
  | cons c rest ih =>
    rw [List.foldl_cons]
    have h1 := @ih (c.foldl (placeNode m hf) nb) (by rw [foldl_place_length, hlen])
    have h2 := foldl_place_flatten_perm hf c hlen hm
    have h3 : List.Perm (rest.flatten ++ (c ++ nb.flatten)) ((c ++ rest.flatten) ++ nb.flatten) := by
      rw [← List.append_assoc]
      exact List.perm_append_comm.append_right nb.flatten
    refine (h1.trans (h2.append_left rest.flatten)).trans ?_
    rw [List.flatten_cons, List.append_assoc]
    exact h3.trans (by rw [List.append_assoc])

lemma rehashList_flatten_perm {m : Nat} (hf : Nat → Nat) (bs : List (List KV)) (hm : 0 < m) :
    List.Perm (rehashList m hf bs).flatten bs.flatten := by
  have h := @foldl_buckets_flatten_perm m hf bs (List.replicate m [])
    (by rw [List.length_replicate]) hm
  rw [rehashList]
  simpa [flatten_replicate_nil] using h

lemma placeNode_placed {m : Nat} {hf : Nat → Nat} {nb : List (List KV)} {x : KV}
    (hlen : nb.length = m) (hm : 0 < m)
    (H : ∀ i, ∀ y ∈ nb.getD i [], hf y.1 % m = i) :
    ∀ i, ∀ y ∈ (placeNode m hf nb x).getD i [], hf y.1 % m = i := by
  intro i y hy
  have hidx : hf x.1 % m < nb.length := by rw [hlen]; exact Nat.mod_lt _ hm
  by_cases hix : hf x.1 % m = i
  · rw [placeNode, hix, getD_set_self _ _ _ (hix ▸ hidx)] at hy
    rw [List.mem_cons] at hy
    rcases hy with hy | hy
    · rw [hy]; exact hix
    · exact H i y hy
  · rw [placeNode, getD_set_ne _ _ hix] at hy
    exact H i y hy

lemma foldl_place_placed {m : Nat} {hf : Nat → Nat} (chain : List KV) {nb : List (List KV)}
    (hlen : nb.length = m) (hm : 0 < m)
    (H : ∀ i, ∀ y ∈ nb.getD i [], hf y.1 % m = i) :
    ∀ i, ∀ y ∈ (chain.foldl (placeNode m hf) nb).getD i [], hf y.1 % m = i := by
  induction chain generalizing nb with
  | nil => exact H
  | cons x xs ih =>
    rw [List.foldl_cons]
    exact ih (by rw [placeNode_length, hlen]) (placeNode_placed hlen hm H)

lemma rehashList_placed {m : Nat} {hf : Nat → Nat} (bs : List (List KV)) (hm : 0 < m) :
    ∀ i, ∀ y ∈ (rehashList m hf bs).getD i [], hf y.1 % m = i := by
  rw [rehashList]
  have base : ∀ i, ∀ y ∈ (List.replicate m ([] : List KV)).getD i [], hf y.1 % m = i := by
    intro i y hy
    rw [getD_replicate] at hy
    cases hy
  have main : ∀ (l : List (List KV)) (nb : List (List KV)), nb.length = m →
      (∀ i, ∀ y ∈ nb.getD i [], hf y.1 % m = i) →
      ∀ i, ∀ y ∈ (l.foldl (fun acc chain => chain.foldl (placeNode m hf) acc) nb).getD i [],
        hf y.1 % m = i := by
    intro l
    induction l with
    | nil => intro nb _ H; exact H
    | cons c rest ih =>
      intro nb hlen H
      rw [List.foldl_cons]
      exact ih _ (by rw [foldl_place_length, hlen]) (foldl_place_placed c hlen hm H)
  exact main bs _ (by rw [List.length_replicate]) base

/-! ### Well-formedness preservation -/

lemma rehashTable_size (t : Table) (m : Nat) : (rehashTable t m).size = t.size := rfl

lemma rehashTable_hashFn (t : Table) (m : Nat) : (rehashTable t m).hashFn = t.hashFn := rfl

lemma rehashTable_maxLoadNum (t : Table) (m : Nat) :
    (rehashTable t m).maxLoadNum = t.maxLoadNum := rfl

lemma rehashTable_maxLoadDen (t : Table) (m : Nat) :
    (rehashTable t m).maxLoadDen = t.maxLoadDen := rfl

lemma rehashTable_length (t : Table) (m : Nat) :
    (rehashTable t m).buckets.length = m := rehashList_length m t.hashFn t.buckets

lemma wf_rehashTable {t : Table} {m : Nat} (hm : 1 ≤ m) (h : Wf t) : Wf (rehashTable t m) := by
  obtain ⟨hlen, hsize, hplaced, hnodup⟩ := h
  have hperm := rehashList_flatten_perm t.hashFn t.buckets hm
  refine ⟨?_, ?_, ?_, ?_⟩
  · rw [rehashTable_length]; exact hm
  · show t.size = (rehashList m t.hashFn t.buckets).flatten.length
    rw [hperm.length_eq]; exact hsize
  · intro i _ x hx
    rw [rehashTable_length]
    exact rehashList_placed t.buckets hm i x hx
  · exact ((hperm.map Prod.fst).nodup_iff).mpr hnodup

lemma checkLoad_size (t : Table) : (checkLoad t).size = t.size := by
  rw [checkLoad]; split <;> rfl

lemma checkLoad_hashFn (t : Table) : (checkLoad t).hashFn = t.hashFn := by
  rw [checkLoad]; split <;> rfl

lemma checkLoad_maxLoadNum (t : Table) : (checkLoad t).maxLoadNum = t.maxLoadNum := by
  rw [checkLoad]; split <;> rfl

lemma checkLoad_maxLoadDen (t : Table) : (checkLoad t).maxLoadDen = t.maxLoadDen := by
  rw [checkLoad]; split <;> rfl

lemma checkLoad_length (t : Table) :
    (checkLoad t).buckets.length = t.buckets.length ∨
      (checkLoad t).buckets.length = t.buckets.length * 2 := by
  rw [checkLoad]; split
  · right; exact rehashTable_length t _
  · left; rfl

lemma wf_checkLoad {t : Table} (h : Wf t) : Wf (checkLoad t) := by
  rw [checkLoad]; split
  · exact wf_rehashTable (by have := h.1; omega) h
  · exact h

lemma checkLoad_flatten_perm {t : Table} (hlen : 1 ≤ t.buckets.length) :
    List.Perm (checkLoad t).buckets.flatten t.buckets.flatten := by
  rw [checkLoad]; split
  · exact rehashList_flatten_perm t.hashFn t.buckets (by omega)
  · exact List.Perm.refl _

/-! ### Chain lookup lemmas -/

lemma chainFind_eq_none {chain : List KV} {k : Nat} :
    chainFind chain k = none ↔ ∀ x ∈ chain, x.1 ≠ k := by
  rw [chainFind, List.find?_eq_none]
  constructor
  · intro H x hx
    have := H x hx
    simpa using this
  · intro H x hx
    simpa using H x hx

lemma chainFind_some {chain : List KV} {k : Nat} {x : KV} (h : chainFind chain k = some x) :
    x ∈ chain ∧ x.1 = k :=
  ⟨List.mem_of_find?_eq_some h, by simpa using List.find?_some h⟩

lemma chainFind_unique {chain : List KV} {k : Nat} {x : KV} (hx : x ∈ chain) (hk : x.1 = k)
    (huniq : ∀ y ∈ chain, y.1 = k → y = x) : chainFind chain k = some x := by
  induction chain with
  | nil => cases hx
  | cons c rest ih =>
    by_cases hc : c.1 = k
    · have hcx : c = x := huniq c (List.mem_cons_self c rest) hc
      rw [chainFind, List.find?_cons_of_pos _ (by simp [hc]), hcx]
    · rw [chainFind, List.find?_cons_of_neg _ (by simp [hc])]
      rw [List.mem_cons] at hx
      rcases hx with hx | hx
      · exact absurd (hx ▸ hk) hc
      · exact ih hx fun y hy hyk => huniq y (List.mem_cons_of_mem c hy) hyk

lemma findTable_eq_some_of_wf {t : Table} (h : Wf t) {x : KV} (hx : x ∈ t.buckets.flatten) :
    findTable t x.1 = some x := by
  obtain ⟨hlen, hsize, hplaced, hnodup⟩ := h
  obtain ⟨c, hc, hxc⟩ := List.mem_flatten.mp hx
  obtain ⟨j, hj, rfl⟩ := List.mem_iff_getElem.mp hc
  have hxj : x ∈ t.buckets.getD j [] := by rw [List.getD_eq_getElem _ _ hj]; exact hxc
  have hidx : t.hashFn x.1 % t.buckets.length = j := hplaced j hj x hxj
  rw [findTable, bucketIdx, hidx]
  refine chainFind_unique hxj rfl ?_
  intro y hy hyk
  exact List.inj_on_of_nodup_map hnodup (mem_getD_flatten hy) hx hyk


/-! ### Insert lemmas -/

lemma insertTable_of_found {t : Table} {kv : KV} {nd : KV}
    (h : chainFind (t.buckets.getD (bucketIdx t kv.1) []) kv.1 = some nd) :
    insertTable t kv = (t, (some nd, false)) := by
  rw [insertTable]
  simp only [h]

lemma insertTable_of_not_found {t : Table} {kv : KV}
    (h : chainFind (t.buckets.getD (bucketIdx t kv.1) []) kv.1 = none) :
    insertTable t kv =
      (checkLoad (insertRaw t kv), (iterAt (checkLoad (insertRaw t kv)) (bucketIdx t kv.1), true)) := by
  rw [insertTable]
  simp only [h]

lemma insertRaw_length (t : Table) (kv : KV) :
    (insertRaw t kv).buckets.length = t.buckets.length := by
  simp [insertRaw]

lemma insertRaw_size (t : Table) (kv : KV) : (insertRaw t kv).size = t.size + 1 := rfl

lemma insertRaw_hashFn (t : Table) (kv : KV) : (insertRaw t kv).hashFn = t.hashFn := rfl

lemma chainFind_none_of_key_not_mem {t : Table} {k : Nat} (i : Nat)
    (hk : k ∉ t.buckets.flatten.map Prod.fst) :
    chainFind (t.buckets.getD i []) k = none := by
  refine chainFind_eq_none.mpr ?_
  intro x hx hxk
  exact hk (hxk ▸ List.mem_map_of_mem Prod.fst (mem_getD_flatten hx))

lemma insertRaw_flatten_perm {t : Table} (kv : KV) (hlen : 1 ≤ t.buckets.length) :
    List.Perm (insertRaw t kv).buckets.flatten (kv :: t.buckets.flatten) := by
  have hi : bucketIdx t kv.1 < t.buckets.length := Nat.mod_lt _ (by omega)
  exact flatten_set_cons_perm t.buckets (bucketIdx t kv.1) kv hi

lemma wf_insertRaw {t : Table} (h : Wf t) {kv : KV}
    (hk : kv.1 ∉ t.buckets.flatten.map Prod.fst) : Wf (insertRaw t kv) := by
  obtain ⟨hlen, hsize, hplaced, hnodup⟩ := h
  have hi : bucketIdx t kv.1 < t.buckets.length := Nat.mod_lt _ (by omega)
  have hperm := insertRaw_flatten_perm kv hlen
  refine ⟨by rw [insertRaw_length]; exact hlen, ?_, ?_, ?_⟩
  · rw [insertRaw_size, hperm.length_eq, List.length_cons, hsize]
  · intro j hj x hx
    rw [insertRaw_length] at hj ⊢
    rw [insertRaw_hashFn]
    by_cases hij : bucketIdx t kv.1 = j
    · have hget : (insertRaw t kv).buckets.getD j [] = kv :: t.buckets.getD j [] := by
        show (t.buckets.set (bucketIdx t kv.1) (kv :: t.buckets.getD (bucketIdx t kv.1) [])).getD j [] = _
        rw [hij] at hi ⊢
        exact getD_set_self _ _ _ hi
      rw [hget, List.mem_cons] at hx
      rcases hx with hx | hx
      · rw [hx, ← hij]; rfl
      · exact hplaced j hj x hx
    · have hget : (insertRaw t kv).buckets.getD j [] = t.buckets.getD j [] :=
        getD_set_ne _ _ hij
      rw [hget] at hx
      exact hplaced j hj x hx
  · have hmap : List.Perm ((insertRaw t kv).buckets.flatten.map Prod.fst)
        (kv.1 :: t.buckets.flatten.map Prod.fst) := by
      simpa using hperm.map Prod.fst
    rw [hmap.nodup_iff, List.nodup_cons]
    exact ⟨hk, hnodup⟩

lemma insertElem_not_mem {t : Table} (h : Wf t) {kv : KV}
    (hk : kv.1 ∉ t.buckets.flatten.map Prod.fst) :
    Wf (insertElem t kv) ∧
      List.Perm (insertElem t kv).buckets.flatten (kv :: t.buckets.flatten) ∧
      (insertElem t kv).size = t.size + 1 ∧ (insertElem t kv).hashFn = t.hashFn := by
  have hfind := chainFind_none_of_key_not_mem (bucketIdx t kv.1) hk
  have hins : insertElem t kv = checkLoad (insertRaw t kv) := by
    rw [insertElem, insertTable_of_not_found hfind]
  have hwf1 := wf_insertRaw h hk
  have hlen1 : 1 ≤ (insertRaw t kv).buckets.length := hwf1.1
  refine ⟨?_, ?_, ?_, ?_⟩
  · rw [hins]; exact wf_checkLoad hwf1
  · rw [hins]
    exact (checkLoad_flatten_perm hlen1).trans (insertRaw_flatten_perm kv h.1)
  · rw [hins, checkLoad_size, insertRaw_size]
  · rw [hins, checkLoad_hashFn, insertRaw_hashFn]

/-! ### Folded insertion (copy construction) -/

lemma foldl_insertElem_nodup (xs : List KV) (acc : Table) (hacc : Wf acc)
    (hnd : (acc.buckets.flatten.map Prod.fst ++ xs.map Prod.fst).Nodup) :
    Wf (xs.foldl insertElem acc) ∧
      List.Perm (xs.foldl insertElem acc).buckets.flatten (xs ++ acc.buckets.flatten) ∧
      (xs.foldl insertElem acc).size = acc.size + xs.length := by
  induction xs generalizing acc with
  | nil => exact ⟨hacc, by simp, by simp⟩
  | cons x xs ih =>
    have hdisj := (List.nodup_append.mp hnd).2.2
    have hx1 : x.1 ∉ acc.buckets.flatten.map Prod.fst := by
      intro hmem
      exact hdisj hmem (by simp)
    obtain ⟨hwf1, hperm1, hsize1, hhash1⟩ := insertElem_not_mem hacc hx1
    have hmap1 : List.Perm ((insertElem acc x).buckets.flatten.map Prod.fst)
        (x.1 :: acc.buckets.flatten.map Prod.fst) := by
      simpa using hperm1.map Prod.fst
    have hnd1 : ((insertElem acc x).buckets.flatten.map Prod.fst ++ xs.map Prod.fst).Nodup := by
      have hfull : List.Perm
          ((insertElem acc x).buckets.flatten.map Prod.fst ++ xs.map Prod.fst)
          (acc.buckets.flatten.map Prod.fst ++ (x.1 :: xs.map Prod.fst)) :=
        (hmap1.append_right (xs.map Prod.fst)).trans List.perm_middle.symm
      rw [hfull.nodup_iff]
      simpa using hnd
    obtain ⟨hwf2, hperm2, hsize2⟩ := ih (insertElem acc x) hwf1 hnd1
    refine ⟨hwf2, ?_, ?_⟩
    · rw [List.foldl_cons]
      exact (hperm2.trans (hperm1.append_left xs)).trans List.perm_middle
    · rw [List.foldl_cons, hsize2, hsize1, List.length_cons]
      omega

/-! ### Iterator traversal -/

lemma iterStream_eq {α : Type} : ∀ (bs : List (List α)) (c : List α),
    iterStream bs c = c ++ bs.flatten := by
  intro bs
  induction bs with
  | nil =>
    intro c
    induction c with
    | nil => simp [iterStream]
    | cons x r ihc =>
      rw [show iterStream [] (x :: r) = x :: iterStream [] r from by rw [iterStream], ihc]
      simp
  | cons b bs ih =>
    intro c
    induction c with
    | nil =>
      rw [show iterStream (b :: bs) [] = iterStream bs b from by rw [iterStream], ih b]
      simp
    | cons x r ihc =>
      rw [show iterStream (b :: bs) (x :: r) = x :: iterStream (b :: bs) r from by rw [iterStream], ihc]
      simp

lemma iterTrace_eq (t : Table) : iterTrace t = t.buckets.flatten := by
  rw [iterTrace, iterStream_eq]
  rfl

/-! ### Load factor as a rational -/

lemma loadBound_iff (s l : Nat) (hl : 1 ≤ l) :
    ((s : ℚ) / (l : ℚ) ≤ 3 / 4) ↔ 4 * s ≤ 3 * l := by
  have hl0 : (0 : ℚ) < (l : ℚ) := by exact_mod_cast hl
  rw [div_le_div_iff₀ hl0 (by norm_num)]
  constructor
  · intro h
    have : (s : ℚ) * 4 ≤ 3 * l := h
    exact_mod_cast (by linarith : (4 : ℚ) * s ≤ 3 * l)
  · intro h
    have : (4 : ℚ) * s ≤ 3 * l := by exact_mod_cast h
    linarith

lemma insertRaw_maxLoadNum (t : Table) (kv : KV) :
    (insertRaw t kv).maxLoadNum = t.maxLoadNum := rfl

lemma insertRaw_maxLoadDen (t : Table) (kv : KV) :
    (insertRaw t kv).maxLoadDen = t.maxLoadDen := rfl

/-! ### Claim theorems -/

/-- C1: refuted as stated; the code is at fault.  at(key) only tests whether
the head of the key's bucket is null and never compares keys or walks the
chain.  On exT1 = {0 ↦ 10} (16 buckets, identity hash), at(16) returns 10
even though key 16 is absent — find returns the end sentinel, count returns
0 and erase removes nothing, so the absent key is real — and on
exT2 = {0 ↦ 10, 16 ↦ 20}, at(0) returns 20, the value stored for key 16,
instead of the value 10 associated with key 0. -/
theorem c1_at_ignores_keys :
    atTable exT1 16 = some 10 ∧ findTable exT1 16 = none ∧ countTable exT1 16 = 0 ∧
      (eraseTable exT1 16).2 = 0 ∧ atTable exT2 0 = some 20 ∧ findTable exT2 0 = some (0, 10) := by
  decide

/-- Support for C2: the scan loop of operator[](Key&&) re-tests the same head
node forever whenever the bucket is non-empty and its head key differs from
the requested key, because the loop body never advances the cursor. -/
lemma bracketMoveLoop_stuck (k : Nat) (nd : KV) (rest : List KV) (hne : (nd.1 == k) = false) :
    ∀ fuel, bracketMoveLoop fuel (nd :: rest) k = none := by
  intro fuel
  induction fuel with
  | zero => rfl
  | succ n ih =>
    rw [bracketMoveLoop, hne]
    simpa using ih

/-- C2: refuted as stated; the code is at fault.  The rvalue overload
operator[](Key&&) does not terminate whenever the key's bucket is non-empty
and its head node holds a different key: on exT1 = {0 ↦ 10} (16 buckets,
identity hash) the call with key 16 lands in non-empty bucket 0, the head key
0 differs from 16, and the loop never returns, for any amount of fuel; exT1
satisfies the data-model invariants, so the input is a legitimate table. -/
theorem c2_bracket_move_diverges :
    Wf exT1 ∧ ∀ fuel : Nat, bracketMove fuel exT1 16 = none := by
  refine ⟨by decide, ?_⟩
  intro fuel
  have hloop : bracketMoveLoop fuel (exT1.buckets.getD (bucketIdx exT1 16) []) 16 = none :=
    bracketMoveLoop_stuck 16 (0, 10) [] (by decide) fuel
  rw [bracketMove]
  simp only [hloop]

/-- C3: refuted as stated; the code is at fault.  The size constructor does
not clamp the requested capacity, so HashTable(0) builds an empty bucket
array, and the move constructor swaps the source with a default-initialized
(empty) bucket vector, so a moved-from table also has zero buckets; in both
states bucket_index's modulo by the bucket count is division by zero. -/
theorem c3_zero_buckets :
    (mkTable 0 id).buckets.length = 0 ∧ (movedFrom exT1).buckets.length = 0 := by
  decide

/-- C4 counterexample: reserve(n) can shrink the bucket array.  On an empty
default table with 16 buckets, reserve(1) rehashes to max(1, 0, 8) = 8
buckets, strictly fewer than the 16 present before the call. -/
theorem c4_reserve_shrinks :
    (mkTable 16 id).buckets.length = 16 ∧ (reserveTable (mkTable 16 id) 1).buckets.length = 8 := by
  decide

/-- C4 amended: after reserve(n) the bucket count is exactly
max(n, size, 8); the claimed equality holds, but the never-shrinks part does
not — the result may be below the previous bucket count. -/
theorem c4_reserve_bucket_count (t : Table) (n : Nat) :
    (reserveTable t n).buckets.length = max (max n t.size) 8 :=
  rehashTable_length t _

/-- C5: refuted as stated; the code is at fault.  insert builds its returned
iterator from _buckets[index] only after check_load has possibly rehashed,
with the index computed for the old bucket count.  On exSmall = {0 ↦ 10}
(2 buckets, identity hash), inserting (2, 20) triggers growth to 4 buckets;
the new element is relinked into bucket 2, the stale index 0 now holds
(0, 10), so insert returns the flag true together with a position referencing
(0, 10) rather than the newly inserted (2, 20) — which was really inserted,
as find confirms. -/
theorem c5_insert_returns_stale_position :
    (insertTable exSmall (2, 20)).2 = (some (0, 10), true) ∧
      findTable (insertTable exSmall (2, 20)).1 2 = some (2, 20) := by
  decide

/-- C6 counterexample: with a previously lowered threshold the load-factor
bound can fail immediately after a successful insertion, because check_load
doubles the bucket count at most once.  exLowLoad holds keys 0 and 1 in 8
buckets with max_load_factor 1/64; inserting (2, 2) succeeds (flag true),
grows 8 to 16 buckets once, and leaves load factor 3/16 > 1/64. -/
theorem c6_low_threshold_violates_bound :
    (insertTable exLowLoad (2, 2)).2.2 = true ∧
      ¬ (((insertTable exLowLoad (2, 2)).1.size : ℚ) /
            ((insertTable exLowLoad (2, 2)).1.buckets.length : ℚ) ≤
          ((insertTable exLowLoad (2, 2)).1.maxLoadNum : ℚ) /
            ((insertTable exLowLoad (2, 2)).1.maxLoadDen : ℚ)) := by
  refine ⟨by decide, ?_⟩
  have hs : (insertTable exLowLoad (2, 2)).1.size = 3 := by decide
  have hl : (insertTable exLowLoad (2, 2)).1.buckets.length = 16 := by decide
  have hn : (insertTable exLowLoad (2, 2)).1.maxLoadNum = 1 := by decide
  have hd : (insertTable exLowLoad (2, 2)).1.maxLoadDen = 64 := by decide
  rw [hs, hl, hn, hd]
  norm_num

/-- C6 amended: with the default threshold 0.75 (the value every constructor
sets), an insertion into a table with at least one bucket that satisfies the
load-factor bound (stated cross-multiplied: 4·size ≤ 3·bucket_count) leaves
the bound satisfied, and growth, when it fires, exactly doubles the bucket
count.  For thresholds lowered through max_load_factor the bound can fail
(see the counterexample), since check_load doubles only once. -/
theorem c6_default_load_bound (t : Table) (kv : KV) (hb : 1 ≤ t.buckets.length)
    (hnum : t.maxLoadNum = 3) (hden : t.maxLoadDen = 4)
    (hload : 4 * t.size ≤ 3 * t.buckets.length) :
    (((insertElem t kv).size : ℚ) / ((insertElem t kv).buckets.length : ℚ) ≤
        ((insertElem t kv).maxLoadNum : ℚ) / ((insertElem t kv).maxLoadDen : ℚ)) ∧
      ((insertElem t kv).buckets.length = t.buckets.length ∨
        (insertElem t kv).buckets.length = t.buckets.length * 2) := by
  cases hfind : chainFind (t.buckets.getD (bucketIdx t kv.1) []) kv.1 with
  | some nd =>
    have he : insertElem t kv = t := by
      rw [insertElem, insertTable_of_found hfind]
    rw [he, hnum, hden]
    exact ⟨(loadBound_iff t.size t.buckets.length hb).mpr hload, Or.inl rfl⟩
  | none =>
    have he : insertElem t kv = checkLoad (insertRaw t kv) := by
      rw [insertElem, insertTable_of_not_found hfind]
    cases hex : loadExceeded (insertRaw t kv) with
    | false =>
      have hc : checkLoad (insertRaw t kv) = insertRaw t kv := by
        rw [checkLoad, hex]
        rfl
      rw [he, hc, insertRaw_size, insertRaw_length, insertRaw_maxLoadNum, insertRaw_maxLoadDen,
        hnum, hden]
      have hxlt : ¬ ((insertRaw t kv).maxLoadNum * (insertRaw t kv).buckets.length <
          (insertRaw t kv).size * (insertRaw t kv).maxLoadDen) := by
        simpa [loadExceeded] using hex
      rw [insertRaw_size, insertRaw_length, insertRaw_maxLoadNum, insertRaw_maxLoadDen,
        hnum, hden] at hxlt
      refine ⟨(loadBound_iff (t.size + 1) t.buckets.length hb).mpr (by omega), Or.inl rfl⟩
    | true =>
      have hc : checkLoad (insertRaw t kv) = rehashTable (insertRaw t kv)
          ((insertRaw t kv).buckets.length * 2) := by
        rw [checkLoad, hex]
        rfl
      rw [he, hc]
      rw [rehashTable_maxLoadNum, rehashTable_maxLoadDen, rehashTable_size, rehashTable_length]
      rw [insertRaw_size, insertRaw_length, insertRaw_maxLoadNum, insertRaw_maxLoadDen,
        hnum, hden]
      have hb2 : 1 ≤ t.buckets.length * 2 := by omega
      refine ⟨(loadBound_iff (t.size + 1) (t.buckets.length * 2) hb2).mpr (by omega), Or.inr rfl⟩

/-- Witness for C6 amended: applied to the default-constructed table (16
buckets, load 0/16, threshold 3/4) and the insertion of (0, 0). -/
theorem c6_default_load_bound_witness :
    (((insertElem (mkTable 16 id) (0, 0)).size : ℚ) /
        ((insertElem (mkTable 16 id) (0, 0)).buckets.length : ℚ) ≤
      ((insertElem (mkTable 16 id) (0, 0)).maxLoadNum : ℚ) /
        ((insertElem (mkTable 16 id) (0, 0)).maxLoadDen : ℚ)) ∧
      ((insertElem (mkTable 16 id) (0, 0)).buckets.length = (mkTable 16 id).buckets.length ∨
        (insertElem (mkTable 16 id) (0, 0)).buckets.length = (mkTable 16 id).buckets.length * 2) :=
  c6_default_load_bound (mkTable 16 id) (0, 0) (by decide) rfl rfl (by decide)

/-- C7: confirmed.  Under the default no-duplicates policy, inserting a key
that is already present (find locates a node nd for it) returns the pair of
the existing element nd and the flag false, and leaves the table — bucket
array, size, stored values — entirely unchanged. -/
theorem c7_duplicate_insert (t : Table) (k v : Nat) (nd : KV)
    (h : findTable t k = some nd) :
    insertTable t (k, v) = (t, (some nd, false)) :=
  insertTable_of_found h

/-- Witness for C7: re-inserting key 0 (with a different value 99) into
exT1 = {0 ↦ 10} returns the stored element (0, 10), the flag false, and the
unchanged table. -/
theorem c7_duplicate_insert_witness :
    insertTable exT1 (0, 99) = (exT1, (some (0, 10), false)) :=
  c7_duplicate_insert exT1 0 99 (0, 10) (by decide)

/-- C8: confirmed.  For a table satisfying the data-model invariants,
reserve(n) leaves the bucket count at least n, keeps size unchanged, and
every key found before the call is found afterwards with the same (key,
value) payload: rehashing relinks the very same elements into the new bucket
array. -/
theorem c8_reserve_preserves (t : Table) (n : Nat) (h : Wf t) (k : Nat) (kv : KV)
    (hf : findTable t k = some kv) :
    n ≤ (reserveTable t n).buckets.length ∧ (reserveTable t n).size = t.size ∧
      findTable (reserveTable t n) k = some kv := by
  have hm : 1 ≤ max (max n t.size) 8 := le_trans (by norm_num) (Nat.le_max_right _ 8)
  have hkv := chainFind_some hf
  have hkvmem : kv ∈ t.buckets.flatten := mem_getD_flatten hkv.1
  have hwf2 : Wf (reserveTable t n) := wf_rehashTable hm h
  have hperm : List.Perm (reserveTable t n).buckets.flatten t.buckets.flatten :=
    rehashList_flatten_perm t.hashFn t.buckets (by omega)
  refine ⟨?_, rfl, ?_⟩
  · rw [reserveTable, rehashTable_length]
    exact le_trans (Nat.le_max_left n t.size) (Nat.le_max_left _ 8)
  · have hmem2 : kv ∈ (reserveTable t n).buckets.flatten := hperm.mem_iff.mpr hkvmem
    rw [← hkv.2]
    exact findTable_eq_some_of_wf hwf2 hmem2

/-- Witness for C8: reserve(20) on exW = {1 ↦ 5} (16 buckets) yields at
least 20 buckets, the same size, and key 1 still found with value 5. -/
theorem c8_reserve_preserves_witness :
    20 ≤ (reserveTable exW 20).buckets.length ∧ (reserveTable exW 20).size = exW.size ∧
      findTable (reserveTable exW 20) 1 = some (1, 5) :=
  c8_reserve_preserves exW 20 (by decide) 1 (1, 5) (by decide)

/-- Support for C9: in a duplicate-free list every member has count one
(stated for the BEq instance of the pair type). -/
lemma count_eq_one_of_nodup_mem {l : List KV} {x : KV} (hnd : l.Nodup) (hx : x ∈ l) :
    l.count x = 1 := by
  induction l with
  | nil => cases hx
  | cons a as ih =>
    rw [List.nodup_cons] at hnd
    rw [List.mem_cons] at hx
    rw [List.count_cons]
    rcases hx with rfl | hx
    · have h0 : as.count x = 0 := List.count_eq_zero.mpr hnd.1
      simp [h0]
    · have hne : x ≠ a := by
        rintro rfl
        exact hnd.1 hx
      simp [ih hnd.2 hx, hne, Ne.symm hne]

/-- C9: confirmed.  For a table satisfying the data-model invariants, the
begin()-to-end() traversal of the iterator state machine visits exactly
size() elements, and each live element of the table exactly once. -/
theorem c9_iteration_complete (t : Table) (h : Wf t) :
    (iterTrace t).length = t.size ∧ ∀ x ∈ t.buckets.flatten, (iterTrace t).count x = 1 := by
  obtain ⟨hlen, hsize, hplaced, hnodup⟩ := h
  rw [iterTrace_eq]
  refine ⟨hsize.symm, ?_⟩
  intro x hx
  exact count_eq_one_of_nodup_mem hnodup.of_map hx

/-- Witness for C9: the traversal of exT2 = {0 ↦ 10, 16 ↦ 20} has length 2
and visits each stored element once. -/
theorem c9_iteration_complete_witness :
    (iterTrace exT2).length = exT2.size ∧ ∀ x ∈ exT2.buckets.flatten, (iterTrace exT2).count x = 1 :=
  c9_iteration_complete exT2 (by decide)

/-- Support for C10: folding the relink loop of rehash over bucket chains
that are all empty leaves the fresh bucket array untouched (clear() followed
by reserve() yields empty buckets of the new capacity). -/
lemma foldl_nil_chains (m : Nat) (hf : Nat → Nat) (init : List (List KV)) :
    ∀ bs : List (List KV), (∀ c ∈ bs, c = []) →
      bs.foldl (fun nb chain => chain.foldl (placeNode m hf) nb) init = init := by
  intro bs
  induction bs with
  | nil => intro _; rfl
  | cons c rest ih =>
    intro hbs
    rw [List.foldl_cons, hbs c (List.mem_cons_self c rest), List.foldl_nil]
    exact ih fun d hd => hbs d (List.mem_cons_of_mem c hd)

/-- Support for C10: every bucket of a cleared table is an empty chain. -/
lemma clearTable_chains (t : Table) : ∀ c ∈ (clearTable t).buckets, c = [] := by
  intro c hc
  rw [clearTable] at hc
  obtain ⟨a, _, h⟩ := List.mem_map.mp hc
  exact h.symm

/-- Support for C10: rebuilding from any table whose buckets are all empty —
whatever its bucket count (at least one), threshold, or hash functor — by
re-inserting every element of a well-formed source in iteration order yields
a table that operator== reports equal to the source. -/
lemma rebuild_tableEq {t : Table} (h : Wf t) {base : Table}
    (hm : 1 ≤ base.buckets.length) (hflat : base.buckets.flatten = [])
    (hsz : base.size = 0) :
    tableEq (t.buckets.flatten.foldl insertElem base) t = true := by
  obtain ⟨hlen, hsize, hplaced, hnodup⟩ := h
  have hwf : Wf t := ⟨hlen, hsize, hplaced, hnodup⟩
  have hwfb : Wf base := by
    refine ⟨hm, ?_, ?_, ?_⟩
    · rw [hflat, hsz]
      rfl
    · intro i hi x hx
      have hx2 := mem_getD_flatten hx
      rw [hflat] at hx2
      cases hx2
    · rw [hflat]
      simp
  have hnd : (base.buckets.flatten.map Prod.fst ++ t.buckets.flatten.map Prod.fst).Nodup := by
    rw [hflat]
    simpa using hnodup
  obtain ⟨hwfC, hpermC, hsizeC⟩ := foldl_insertElem_nodup t.buckets.flatten base hwfb hnd
  have hpermC2 :
      List.Perm (t.buckets.flatten.foldl insertElem base).buckets.flatten t.buckets.flatten :=
    hpermC.trans (by rw [hflat, List.append_nil])
  have hsizeC2 : (t.buckets.flatten.foldl insertElem base).size = t.size := by
    rw [hsizeC, hsz, Nat.zero_add, hsize]
  rw [tableEq, Bool.and_eq_true]
  refine ⟨beq_iff_eq.mpr hsizeC2, List.all_eq_true.mpr ?_⟩
  intro kv hkv
  rw [iterTrace_eq] at hkv
  have hmem : kv ∈ t.buckets.flatten := hpermC2.mem_iff.mp hkv
  rw [findTable_eq_some_of_wf hwf hmem]
  simp

/-- C10: confirmed for both copying paths.  The copy constructor rebuilds the
table by reserving the source's bucket count on a default-initialized table
and re-inserting every element in iteration order; the copy assignment
operator clears the destination (retaining its bucket capacity, _max_load and
functors), reserves the source's bucket count, and re-inserts the same way.
For a source satisfying the data-model invariants, either result holds
exactly the source's elements, so operator== (equal sizes, and every element
of the copy found by key in the source with equal payload) returns true —
for copy assignment, for every destination table whatsoever; the source,
taken by constant reference in both paths, is not mutated. -/
theorem c10_copy_eq (t : Table) (h : Wf t) (dst : Table) :
    tableEq (copyTable t) t = true ∧ tableEq (copyAssign dst t) t = true := by
  constructor
  · rw [copyTable, iterTrace_eq]
    refine rebuild_tableEq h ?_ ?_ rfl
    · rw [reserveTable, rehashTable_length]
      exact le_trans (by norm_num) (Nat.le_max_right _ 8)
    · have hb1 : (reserveTable
          { buckets := [], size := 0, maxLoadNum := 3, maxLoadDen := 4, hashFn := t.hashFn }
          t.buckets.length).buckets = List.replicate (max (max t.buckets.length 0) 8) [] := rfl
      rw [hb1, flatten_replicate_nil]
  · rw [copyAssign, iterTrace_eq]
    refine rebuild_tableEq h ?_ ?_ rfl
    · rw [reserveTable, rehashTable_length]
      exact le_trans (by norm_num) (Nat.le_max_right _ 8)
    · have hb2 : (reserveTable (clearTable dst) t.buckets.length).buckets =
          List.replicate (max (max t.buckets.length (clearTable dst).size) 8) [] := by
        show rehashList _ _ (clearTable dst).buckets = _
        rw [rehashList, foldl_nil_chains _ _ _ _ (clearTable_chains dst)]
      rw [hb2, flatten_replicate_nil]

/-- Witness for C10: the copy of exT2 = {0 ↦ 10, 16 ↦ 20} compares equal to
exT2 under operator==, and so does the result of assigning exT2 onto
exLowLoad, a destination with a different bucket count and a lowered
max_load_factor of 1/64. -/
theorem c10_copy_eq_witness :
    tableEq (copyTable exT2) exT2 = true ∧ tableEq (copyAssign exLowLoad exT2) exT2 = true :=
  c10_copy_eq exT2 (by decide) exLowLoad
